/-
Verification of the beehive replicated consensus core and registry state
machine against its specification.

The registry state machine is embedded from src/registry.go; the raft Node
apply/request paths are embedded from src/raft/node.go (older variant) and
the newer node implementation (src/unnamed/part_001).  Repository code that
is referenced by the sources but whose file is not part of the source set
(the Colony type, the cell store, the rendezvous line, the gen ID
generator and the gob encoder) is modelled from the specification; each
such definition carries a doc comment saying so.

Go maps are modelled as association lists with replace-on-insert
semantics; uint64 counters are modelled as Nat (no claim depends on
64-bit wraparound).
-/
import Mathlib

set_option linter.unusedVariables false

namespace Beehive

/-! ### Association-list maps (model of Go maps) -/

/-- Lookup in an association-list map. -/
def mapLookup {κ α : Type} [DecidableEq κ] (m : List (κ × α)) (k : κ) : Option α :=
  (m.find? (fun e => decide (e.1 = k))).map (fun e => e.2)

/-- Insert (replace-or-add) in an association-list map.  Go maps are
unordered, so any canonical ordering is a faithful model; we put the new
binding first and drop any stale binding. -/
def mapInsert {κ α : Type} [DecidableEq κ] (m : List (κ × α)) (k : κ) (v : α) :
    List (κ × α) :=
  (k, v) :: m.filter (fun e => !decide (e.1 = k))

/-- Delete a key from an association-list map. -/
def mapErase {κ α : Type} [DecidableEq κ] (m : List (κ × α)) (k : κ) : List (κ × α) :=
  m.filter (fun e => !decide (e.1 = k))

theorem mapLookup_filter_ne {κ α : Type} [DecidableEq κ] (m : List (κ × α)) (k j : κ)
    (h : j ≠ k) :
    mapLookup (m.filter (fun e => !decide (e.1 = k))) j = mapLookup m j := by
  induction m with
  | nil => rfl
  | cons e t ih =>
    rcases e with ⟨a, v⟩
    by_cases hak : a = k
    · have h1 : ((a, v) :: t).filter (fun x => !decide (x.1 = k)) =
          t.filter (fun x => !decide (x.1 = k)) := by
        simp [List.filter_cons, hak]
      have haj : ¬(a = j) := by rw [hak]; exact fun hkj => h hkj.symm
      have h2 : mapLookup ((a, v) :: t) j = mapLookup t j := by
        unfold mapLookup
        rw [List.find?_cons_of_neg _ (by simpa using haj)]
      rw [h1, h2]
      exact ih
    · have h1 : ((a, v) :: t).filter (fun x => !decide (x.1 = k)) =
          (a, v) :: t.filter (fun x => !decide (x.1 = k)) := by
        simp [List.filter_cons, hak]
      rw [h1]
      by_cases haj : a = j
      · unfold mapLookup
        rw [List.find?_cons_of_pos _ (by simpa using haj),
          List.find?_cons_of_pos _ (by simpa using haj)]
      · unfold mapLookup
        rw [List.find?_cons_of_neg _ (by simpa using haj),
          List.find?_cons_of_neg _ (by simpa using haj)]
        exact ih

theorem mapLookup_insert {κ α : Type} [DecidableEq κ] (m : List (κ × α)) (k j : κ) (v : α) :
    mapLookup (mapInsert m k v) j = if j = k then some v else mapLookup m j := by
  by_cases hjk : j = k
  · subst hjk
    unfold mapLookup mapInsert
    rw [List.find?_cons_of_pos _ (by simp)]
    simp
  · unfold mapInsert mapLookup
    rw [List.find?_cons_of_neg _ (by simpa using fun hkj => hjk hkj.symm)]
    rw [if_neg hjk]
    exact mapLookup_filter_ne m k j hjk

theorem mapLookup_insert_self {κ α : Type} [DecidableEq κ] (m : List (κ × α)) (k : κ) (v : α) :
    mapLookup (mapInsert m k v) k = some v := by
  simp [mapLookup_insert]

theorem mapLookup_insert_ne {κ α : Type} [DecidableEq κ] (m : List (κ × α)) (k j : κ) (v : α)
    (h : j ≠ k) : mapLookup (mapInsert m k v) j = mapLookup m j := by
  simp [mapLookup_insert, h]

theorem mapLookup_erase {κ α : Type} [DecidableEq κ] (m : List (κ × α)) (k j : κ) :
    mapLookup (mapErase m k) j = if j = k then none else mapLookup m j := by
  by_cases hjk : j = k
  · subst hjk
    rw [if_pos rfl]
    unfold mapErase mapLookup
    rw [List.find?_eq_none.mpr]
    · rfl
    · intro x hx
      have hxk := (List.mem_filter.mp hx).2
      simp only [Bool.not_eq_true', decide_eq_false_iff_not] at hxk
      simpa using hxk
  · rw [if_neg hjk]
    exact mapLookup_filter_ne m k j hjk

theorem mapLookup_mem {κ α : Type} [DecidableEq κ] (m : List (κ × α)) (k : κ) (v : α)
    (h : mapLookup m k = some v) : (k, v) ∈ m := by
  unfold mapLookup at h
  cases hf : m.find? (fun e => decide (e.1 = k)) with
  | none => rw [hf] at h; simp at h
  | some e =>
    rw [hf] at h
    have hmem := List.mem_of_find?_eq_some hf
    have hp := List.find?_some hf
    simp only [decide_eq_true_eq] at hp
    simp at h
    have : e = (k, v) := by
      cases e with
      | mk a b =>
        simp only at hp h
        rw [hp, h]
    rwa [this] at hmem

end Beehive

namespace Beehive

/-! ### Colony and the cell store

The Colony type and the cell store are referenced by src/registry.go but
defined in a repository file outside the source set; they are modelled
from the specification. -/

/-- Modelled from the spec: `Colony {Leader: u64, Followers: [u64]}` — the
set of bees forming a replicated colony (repository file defining Colony
is missing from the source set). -/
structure Colony where
  Leader : Nat
  Followers : List Nat
deriving DecidableEq, Repr

/-- The nil colony (`Colony{}` in Go, zero value). -/
def Colony.nilC : Colony := { Leader := 0, Followers := [] }

/-- Modelled from the spec: a colony `IsNil` iff `Leader == 0`. -/
def Colony.IsNil (c : Colony) : Bool := c.Leader == 0

/-- Modelled from the spec: a colony contains a bee iff the bee is its
leader or one of its followers. -/
def Colony.Contains (c : Colony) (id : Nat) : Bool :=
  c.Leader == id || c.Followers.contains id

/-- Modelled from the spec: colony equality used by `registry.lock`. -/
def Colony.Equals (c d : Colony) : Bool := c == d

/-- Modelled from the spec: `CellStore: for each (App, Cell) key, the
Colony owning it` (repository file defining the cell store is missing
from the source set).  Keys pair the application name with the cell key. -/
structure cellStore where
  entries : List ((String × String) × Colony)
deriving DecidableEq, Repr

/-- `newCellStore()`: the empty cell store. -/
def newCellStore : cellStore := { entries := [] }

/-- Modelled from the spec: look up the colony owning cell `k` of
application `app`. -/
def cellStore.colony (s : cellStore) (app k : String) : Option Colony :=
  mapLookup s.entries (app, k)

/-- Modelled from the spec: assign cell `k` of application `app` to
colony `c`, replacing any previous owner. -/
def cellStore.assign (s : cellStore) (app k : String) (c : Colony) : cellStore :=
  { entries := mapInsert s.entries (app, k) c }

/-- Modelled from the spec: the cells owned by bee `id`, i.e. the cell
keys whose owning colony has `id` as its leader. -/
def cellStore.cells (s : cellStore) (id : Nat) : List String :=
  (s.entries.filter (fun e => e.2.Leader == id)).map (fun e => e.1.2)

/-- Modelled from the spec: `Re-assign each cell currently owned by Old
in CellStore to New.` -/
def cellStore.updateColony (s : cellStore) (old new : Colony) : cellStore :=
  { entries := s.entries.map (fun e => if e.2 = old then (e.1, new) else e) }

/-- Assign every cell of `ks` (in order) of application `app` to colony
`c`; this is the sequential assignment loop shared by `registry.lock`
and `registry.transfer`. -/
def cellStore.assignAll (s : cellStore) (app : String) (ks : List String) (c : Colony) :
    cellStore :=
  match ks with
  | [] => s
  | k :: t => (s.assign app k c).assignAll app t c

theorem cellStore.colony_assign_self (s : cellStore) (app k : String) (c : Colony) :
    (s.assign app k c).colony app k = some c := by
  simp [cellStore.assign, cellStore.colony, mapLookup_insert_self]

theorem cellStore.colony_assign_ne (s : cellStore) (app k app' k' : String) (c : Colony)
    (h : (app', k') ≠ (app, k)) :
    (s.assign app k c).colony app' k' = s.colony app' k' := by
  simp only [cellStore.assign, cellStore.colony]
  exact mapLookup_insert_ne _ _ _ _ h

theorem cellStore.colony_assignAll (s : cellStore) (app : String) (ks : List String)
    (c : Colony) (app' k' : String) :
    (s.assignAll app ks c).colony app' k' =
      if app' = app ∧ k' ∈ ks then some c else s.colony app' k' := by
  induction ks generalizing s with
  | nil => simp [cellStore.assignAll]
  | cons k t ih =>
    simp only [cellStore.assignAll]
    rw [ih]
    by_cases hmem : app' = app ∧ k' ∈ t
    · simp [hmem, hmem.2]
    · rw [if_neg hmem]
      by_cases hk : app' = app ∧ k' = k
      · rw [hk.1, hk.2]
        simp [cellStore.colony_assign_self]
      · have hne : (app', k') ≠ (app, k) := by
          intro hEq
          exact hk ⟨congrArg Prod.fst hEq, congrArg Prod.snd hEq⟩
        rw [cellStore.colony_assign_ne s app k app' k' c hne]
        have : ¬(app' = app ∧ k' ∈ k :: t) := by
          rintro ⟨ha, hm⟩
          rcases List.mem_cons.mp hm with h1 | h2
          · exact hk ⟨ha, h1⟩
          · exact hmem ⟨ha, h2⟩
        rw [if_neg this]

/-! ### Registry data model (src/registry.go) -/

/-- `NodeInfo` stores the ID and the address of a hive (newer raft node
variant). -/
structure NodeInfo where
  ID : Nat
  Addr : String
deriving DecidableEq, Repr

/-- `HiveInfo {ID, Addr}`: one per cluster member. -/
structure HiveInfo where
  ID : Nat
  Addr : String
deriving DecidableEq, Repr

/-- `BeeInfo` stores the metadata about a bee (src/registry.go). -/
structure BeeInfo where
  ID : Nat
  Hive : Nat
  App : String
  Colony : Colony
  Detached : Bool
deriving DecidableEq, Repr

/-- The registry request variants of src/registry.go, as one tagged sum
(in Go each is a distinct type registered with gob). -/
inductive RegistryRequest where
  | noOp
  | newHiveID (Addr : String)
  | newBeeID
  | addBee (info : BeeInfo)
  | delBee (id : Nat)
  | moveBee (ID FromHive ToHive : Nat)
  | updateColony (Old New : Colony)
  | lockMappedCell (Colony : Colony) (App : String) (Cells : List String)
  | transferCells (From To : Colony)
  | unsupported
deriving DecidableEq, Repr

/-- The registry error values of src/registry.go. -/
inductive RegErr where
  | ErrUnsupportedRequest
  | ErrInvalidParam
  | ErrNoSuchHive
  | ErrDuplicateHive
  | ErrNoSuchBee
  | ErrDuplicateBee
deriving DecidableEq, Repr

/-- The reply values a registry `Apply` can produce (`interface{}` in Go:
nil, a uint64 id, or a Colony). -/
inductive Reply where
  | noReply
  | num (n : Nat)
  | col (c : Colony)
deriving DecidableEq, Repr

/-- The registry replicated state: `{HiveID, BeeID, Hives, Bees, Store}`.
The unexported mutex and name fields of the Go struct are not part of
the replicated (or serialized) state and are omitted. -/
structure registry where
  HiveID : Nat
  BeeID : Nat
  Hives : List (Nat × HiveInfo)
  Bees : List (Nat × BeeInfo)
  Store : cellStore
deriving DecidableEq, Repr

/-- `newRegistry`: HiveID starts at 1 to preserve the first hive's ID. -/
def newRegistry : registry :=
  { HiveID := 1, BeeID := 0, Hives := [], Bees := [], Store := newCellStore }

/-- Outcome of applying one request: a reply and the next state, an error
and the next state, or a fatal halt (`glog.Fatalf`). -/
inductive RegResult where
  | ok (reply : Reply) (r : registry)
  | err (e : RegErr) (r : registry)
  | fatal
deriving DecidableEq, Repr

/-- `registry.addHive`: a duplicate address on a different hive id is
fatal; otherwise record the hive info (src/registry.go lines 202-212). -/
def registry.addHive (r : registry) (info : HiveInfo) : Option registry :=
  if r.Hives.any (fun e => e.2.Addr == info.Addr && !(e.2.ID == info.ID)) then none
  else some { r with Hives := mapInsert r.Hives info.ID info }

/-- `registry.newHiveID`: increment HiveID and, for a non-empty address,
record the hive (src/registry.go lines 167-174). -/
def registry.newHiveIDGo (r : registry) (addr : String) : Option (Nat × registry) :=
  let r1 := { r with HiveID := r.HiveID + 1 }
  if addr ≠ "" then (r1.addHive { ID := r1.HiveID, Addr := addr }).map (fun r2 => (r1.HiveID, r2))
  else some (r1.HiveID, r1)

/-- `registry.newBeeID`: increment BeeID (src/registry.go lines 176-180). -/
def registry.newBeeIDGo (r : registry) : Nat × registry :=
  (r.BeeID + 1, { r with BeeID := r.BeeID + 1 })

/-- `registry.addBee` (src/registry.go lines 214-230): fatal on a zero
id, `ErrDuplicateBee` on a registered id, fatal when `BeeID < info.ID`,
otherwise insert. -/
def registry.addBeeGo (r : registry) (info : BeeInfo) : RegResult :=
  if info.ID = 0 then .fatal
  else if (mapLookup r.Bees info.ID).isSome then .err .ErrDuplicateBee r
  else if r.BeeID < info.ID then .fatal
  else .ok .noReply { r with Bees := mapInsert r.Bees info.ID info }

/-- `registry.delBee` (src/registry.go lines 232-239). -/
def registry.delBeeGo (r : registry) (id : Nat) : RegResult :=
  if (mapLookup r.Bees id).isSome then .ok .noReply { r with Bees := mapErase r.Bees id }
  else .err .ErrNoSuchBee r

/-- `registry.moveBee` (src/registry.go lines 241-258). -/
def registry.moveBeeGo (r : registry) (id fromHive toHive : Nat) : RegResult :=
  match mapLookup r.Bees id with
  | none => .err .ErrNoSuchBee r
  | some b =>
    if b.Hive ≠ fromHive then .err .ErrInvalidParam r
    else if fromHive = toHive then .ok .noReply r
    else .ok .noReply { r with Bees := mapInsert r.Bees id { b with Hive := toHive } }

/-- Set a bee's colony through `mustFindBee` + map write; a missing bee
is fatal (`none`). -/
def setBeeColony (bees : List (Nat × BeeInfo)) (id : Nat) (c : Colony) :
    Option (List (Nat × BeeInfo)) :=
  match mapLookup bees id with
  | none => none
  | some b => some (mapInsert bees id { b with Colony := c })

/-- The old-follower loop of `registry.updateColony`: every old follower
not contained in the new colony has its colony cleared. -/
def clearOldFollowers (new : Colony) (bees : List (Nat × BeeInfo)) :
    List Nat → Option (List (Nat × BeeInfo))
  | [] => some bees
  | f :: fs =>
    if new.Contains f then clearOldFollowers new bees fs
    else match setBeeColony bees f Colony.nilC with
      | none => none
      | some b2 => clearOldFollowers new b2 fs

/-- The new-follower loop of `registry.updateColony`: every follower of
the new colony gets the new colony. -/
def setNewFollowers (new : Colony) (bees : List (Nat × BeeInfo)) :
    List Nat → Option (List (Nat × BeeInfo))
  | [] => some bees
  | f :: fs =>
    match setBeeColony bees f new with
    | none => none
    | some b2 => setNewFollowers new b2 fs

/-- `registry.updateColony` (src/registry.go lines 260-300).  The cell
re-assignment delegates to the spec-modelled `cellStore.updateColony`
(the Go code passes the new leader's app, which the spec's description
of the cell re-assignment does not use). -/
def registry.updateColonyGo (r : registry) (old new : Colony) : RegResult :=
  if new.IsNil || old.IsNil then .err .ErrInvalidParam r
  else match mapLookup r.Bees new.Leader with
  | none => .fatal
  | some _b =>
    let r1 : registry := { r with Store := r.Store.updateColony old new }
    let step1 : Option (List (Nat × BeeInfo)) :=
      if old.Leader ≠ new.Leader then
        match mapLookup r1.Bees old.Leader with
        | none => none
        | some b =>
          some (mapInsert r1.Bees old.Leader
            { b with Colony := if new.Contains old.Leader then new else Colony.nilC })
      else some r1.Bees
    match step1 with
    | none => .fatal
    | some bees1 =>
      match clearOldFollowers new bees1 old.Followers with
      | none => .fatal
      | some bees2 =>
        match setNewFollowers new bees2 new.Followers with
        | none => .fatal
        | some bees3 =>
          match mapLookup bees3 new.Leader with
          | none => .fatal
          | some bl =>
            .ok .noReply { r1 with Bees := mapInsert bees3 new.Leader { bl with Colony := new } }

/-- State of the scan loop of `registry.lock`. -/
structure LockSt where
  locked : Bool
  openk : List String
  col : Colony
  store : cellStore
deriving DecidableEq, Repr

/-- The cell-scan loop of `registry.lock` (src/registry.go lines
315-335): an owned cell adopts the owning colony; an unowned cell is
assigned immediately when a colony was already adopted, and queued in
`openk` otherwise.  A cross-colony conflict is fatal (`none`). -/
def lockLoop (app : String) : List String → LockSt → Option LockSt
  | [], st => some st
  | k :: ks, st =>
    match st.store.colony app k with
    | none =>
      if st.locked then lockLoop app ks { st with store := st.store.assign app k st.col }
      else lockLoop app ks { st with openk := st.openk ++ [k] }
    | some c =>
      if st.locked && !(Colony.Equals c st.col) then none
      else lockLoop app ks { st with locked := true, col := c }

/-- `registry.lock` (src/registry.go lines 310-348). -/
def registry.lockGo (r : registry) (lcol : Colony) (app : String) (cells : List String) :
    RegResult :=
  if lcol.Leader = 0 then .err .ErrInvalidParam r
  else match lockLoop app cells { locked := false, openk := [], col := lcol, store := r.Store } with
  | none => .fatal
  | some st =>
    if st.locked then
      .ok (.col st.col) { r with Store := st.store.assignAll app st.openk st.col }
    else
      .ok (.col st.col) { r with Store := st.store.assignAll app cells st.col }

/-- `registry.transfer` (src/registry.go lines 350-363). -/
def registry.transferGo (r : registry) (fromC toC : Colony) : RegResult :=
  match mapLookup r.Bees fromC.Leader with
  | none => .err .ErrNoSuchBee r
  | some i =>
    let keys := r.Store.cells fromC.Leader
    if keys.isEmpty then .err .ErrInvalidParam r
    else .ok .noReply { r with Store := r.Store.assignAll i.App keys toC }

/-- `registry.Apply` (src/registry.go lines 113-140): dispatch on the
request variant. -/
def registry.Apply (r : registry) : RegistryRequest → RegResult
  | .noOp => .ok .noReply r
  | .newHiveID addr =>
    match r.newHiveIDGo addr with
    | none => .fatal
    | some (id, r1) => .ok (.num id) r1
  | .newBeeID =>
    let (id, r1) := r.newBeeIDGo
    .ok (.num id) r1
  | .addBee info => r.addBeeGo info
  | .delBee id => r.delBeeGo id
  | .moveBee id fromHive toHive => r.moveBeeGo id fromHive toHive
  | .updateColony old new => r.updateColonyGo old new
  | .lockMappedCell c app cells => r.lockGo c app cells
  | .transferCells fromC toC => r.transferGo fromC toC
  | .unsupported => .err .ErrUnsupportedRequest r

/-- Conf-change types (raftpb). -/
inductive CcType where
  | add
  | remove
  | other
deriving DecidableEq, Repr

/-- `registry.ApplyConfChange` (src/registry.go lines 146-165): on Add,
a NodeInfo whose id differs from the conf change's node id is fatal and
a non-empty address records the hive; on Remove the hive is deleted
(the `delHive` error is discarded). -/
def registry.ApplyConfChangeGo (r : registry) (t : CcType) (ccNodeID : Nat) (n : NodeInfo) :
    Option registry :=
  match t with
  | .add =>
    if n.ID ≠ ccNodeID then none
    else if n.Addr ≠ "" then r.addHive { ID := n.ID, Addr := n.Addr }
    else some r
  | .remove => some { r with Hives := mapErase r.Hives ccNodeID }
  | .other => some r

/-- Modelled from the spec: `bhgob.Encode` — the encoder of the
repository's gob package (missing from the source set); `Save()` returns
an encoded snapshot of `{HiveID, BeeID, Hives, Bees, CellStore}`,
modelled as a deterministic rendering of the replicated state. -/
def registry.Save (r : registry) : String :=
  reprStr r

/-- One log entry as seen by a replica: a normal registry request or a
conf change. -/
inductive LogOp where
  | req (q : RegistryRequest)
  | conf (t : CcType) (ccNodeID : Nat) (n : NodeInfo)
deriving DecidableEq, Repr

/-- Apply a sequence of log entries to a registry; a fatal halt absorbs
the rest of the log.  Errors keep the (unchanged) state, as in the Go
code where the error is returned through the response. -/
def applySeq (r : registry) : List LogOp → Option registry
  | [] => some r
  | .req q :: t =>
    match r.Apply q with
    | .ok _ r1 => applySeq r1 t
    | .err _ r1 => applySeq r1 t
    | .fatal => none
  | .conf ty id n :: t =>
    match r.ApplyConfChangeGo ty id n with
    | none => none
    | some r1 => applySeq r1 t

end Beehive

namespace Raft

open Beehive (NodeInfo CcType)

/-! ### Raft node: request/response plumbing

Embedded from the newer node variant (`Node.Process`, `Node.applyEntry`)
and the older one (src/raft/node.go, `Node.Do`). -/

/-- `RequestID {NodeID, Seq}`: globally unique request identifier. -/
structure RequestID where
  NodeID : Nat
  Seq : Nat
deriving DecidableEq, Repr

/-- `Request {ID, Data}`: the payload of a raft log entry.  `Data` is an
`interface{}` in Go and may be nil, hence the `Option`. -/
structure Request (δ : Type) where
  ID : RequestID
  Data : Option δ
deriving DecidableEq, Repr

/-- `Response {ID, Data, Err}` as produced by the newer `applyEntry`. -/
structure Response (ρ ε : Type) where
  ID : RequestID
  Data : Option ρ
  Err : Option ε
deriving DecidableEq, Repr

/-- The data of a committed normal entry, as the newer `applyEntry` sees
it: empty data, undecodable data (fatal), or a decoded Request. -/
inductive EntryData (δ : Type) where
  | empty
  | garbage
  | request (q : Request δ)
deriving DecidableEq, Repr

/-- Outcome of the newer `applyEntry`: fatal decode failure, no response
(empty entry or nil request data), or a response handed to the line. -/
inductive ApplyEntryOut (ρ ε : Type) where
  | fatal
  | silent
  | response (res : Response ρ ε)
deriving DecidableEq, Repr

/-- The newer `Node.applyEntry`: skip empty entries, halt on undecodable
data, skip nil request data, otherwise `Store.Apply` the request data
and build the response from its reply and error.  `apply` is the user
store's `Apply`. -/
def applyEntry {δ ρ ε : Type} (apply : δ → Option ρ × Option ε) :
    EntryData δ → ApplyEntryOut ρ ε
  | .empty => .silent
  | .garbage => .fatal
  | .request q =>
    match q.Data with
    | none => .silent
    | some d => .response { ID := q.ID, Data := (apply d).1, Err := (apply d).2 }

/-- The response `applyEntry` produces for a request with non-nil data. -/
def responseFor {δ ρ ε : Type} (apply : δ → Option ρ × Option ε) (id : RequestID) (d : δ) :
    Response ρ ε :=
  { ID := id, Data := (apply d).1, Err := (apply d).2 }

/-- Which arm of the `select` in the newer `Node.Process` fires first:
the reply channel, the caller's context, or node shutdown. -/
inductive ProcessEvent (ρ ε : Type) where
  | deliver (res : Response ρ ε)
  | ctxDone
  | nodeDone
deriving DecidableEq, Repr

/-- The errors a `Process` caller can see. -/
inductive ProcessErr (ε : Type) where
  | storeErr (e : ε)
  | cancelled
  | stopped
deriving DecidableEq, Repr

/-- Return value of the newer `Node.Process` for each `select` arm:
`res.Data, res.Err` on delivery, `nil, ctx.Err()` on cancellation,
`nil, ErrStopped` on shutdown. -/
def processReturn {ρ ε : Type} : ProcessEvent ρ ε → Option ρ × Option (ProcessErr ε)
  | .deliver res => (res.Data, res.Err.map .storeErr)
  | .ctxDone => (none, some .cancelled)
  | .nodeDone => (none, some .stopped)

/-- Which arm of the `select` in the older `Node.Do` fires first.  The
older store's `Apply` returns a single value, so a delivery carries just
the reply. -/
inductive DoEvent (ρ : Type) where
  | deliver (data : ρ)
  | ctxDone
  | nodeDone
deriving DecidableEq, Repr

/-- Return value of the older `Node.Do` (src/raft/node.go lines
143-151): `res.Data, nil` on delivery, `nil, ctx.Err()` on cancellation,
`nil, ErrStopped` on shutdown. -/
def doReturn {ρ ε : Type} : DoEvent ρ → Option ρ × Option (ProcessErr ε)
  | .deliver d => (some d, none)
  | .ctxDone => (none, some .cancelled)
  | .nodeDone => (none, some .stopped)

/-- Modelled from the spec: the rendezvous line's `call` — deliver the
response to the registered waiter for its ID and remove the entry, or
drop it silently (the line's file is missing from the source set). -/
def lineCall (waiters : List RequestID) (res : Response ρ ε) :
    Option (Response ρ ε) × List RequestID :=
  if waiters.contains res.ID then (some res, waiters.erase res.ID) else (none, waiters)

/-! ### Raft node: conf-change application (newer variant) -/

/-- What the decoded `cc.Context` can be for the newer
`Node.applyConfChange`: empty, a NodeInfo, a Request (whose payload must
be a NodeInfo — anything else is a fatal type assertion), or
undecodable. -/
inductive CcContext where
  | empty
  | info (i : NodeInfo)
  | request (id : RequestID) (i : NodeInfo)
  | requestOther (id : RequestID)
  | garbage
deriving DecidableEq, Repr

/-- A raft conf change `{Type, NodeID, Context}` (`Type` is a Lean
keyword, hence `Typ`). -/
structure ConfChange where
  Typ : CcType
  NodeID : Nat
  Context : CcContext
deriving DecidableEq, Repr

/-- `containsNode` (newer node variant, lines 282-289). -/
def containsNode (nodes : List Nat) (node : Nat) : Bool :=
  nodes.contains node

/-- Outcome of `Node.validConfChange`: valid, a returned validation
error, or fatal (an unknown conf-change type). -/
inductive ValidOut where
  | valid
  | invalid
  | fatalType
deriving DecidableEq, Repr

/-- `Node.validConfChange` (newer node variant, lines 291-311): a nil
node id is an error; Add requires the node not to be a member, Remove
requires it to be one; any other type is fatal. -/
def validConfChange (cc : ConfChange) (confs : List Nat) : ValidOut :=
  if cc.NodeID = 0 then .invalid
  else match cc.Typ with
  | .add => if containsNode confs cc.NodeID then .invalid else .valid
  | .remove => if !containsNode confs cc.NodeID then .invalid else .valid
  | .other => .fatalType

/-- Modelled from the spec: the external Raft engine's
`ApplyConfChange(cc) → ConfState` — add or remove the member; a zeroed
NodeID leaves the membership unchanged (the engine is an external
collaborator, spec section 6). -/
def engineApplyCc (nodes : List Nat) (cc : ConfChange) : List Nat :=
  if cc.NodeID = 0 then nodes
  else match cc.Typ with
  | .add => if nodes.contains cc.NodeID then nodes else nodes ++ [cc.NodeID]
  | .remove => nodes.filter (fun n => !decide (n = cc.NodeID))
  | .other => nodes

/-- The observable effect of the newer `Node.applyConfChange` on one
committed conf-change entry. -/
structure CcEffect (ε : Type) where
  engineCC : ConfChange
  confState : List Nat
  storeCall : Option (ConfChange × NodeInfo)
  lineResp : Option (RequestID × Option ε)
  retErr : Bool
deriving DecidableEq, Repr

/-- Outcome of the newer `Node.applyConfChange`. -/
inductive CcResult (ε : Type) where
  | fatal
  | done (eff : CcEffect ε)
deriving DecidableEq, Repr

/-- The newer `Node.applyConfChange` (lines 313-352).  On validation
failure the error is logged, the NodeID zeroed, the neutered cc fed to
the engine, and the entry dropped.  On success the cc is applied to the
engine and the store is notified according to the decoded context;
`storeCc` is the user store's `ApplyConfChange`. -/
def applyConfChange {ε : Type} (storeCc : ConfChange → NodeInfo → Option ε)
    (confs : List Nat) (cc : ConfChange) : CcResult ε :=
  match validConfChange cc confs with
  | .fatalType => .fatal
  | .invalid =>
    let neutered : ConfChange := { cc with NodeID := 0 }
    .done { engineCC := neutered, confState := engineApplyCc confs neutered,
            storeCall := none, lineResp := none, retErr := true }
  | .valid =>
    let confs1 := engineApplyCc confs cc
    match cc.Context with
    | .empty =>
      .done { engineCC := cc, confState := confs1,
              storeCall := some (cc, { ID := 0, Addr := "" }), lineResp := none,
              retErr := false }
    | .info i =>
      if i.ID ≠ cc.NodeID then .fatal
      else .done { engineCC := cc, confState := confs1, storeCall := some (cc, i),
                   lineResp := none, retErr := false }
    | .request id i =>
      .done { engineCC := cc, confState := confs1, storeCall := some (cc, i),
              lineResp := some (id, storeCc cc i), retErr := false }
    | .requestOther _ => .fatal
    | .garbage => .fatal

/-! ### Raft node: the main loop as a transition system

The newer `Node.Start` (lines 354-467) is a `select` loop over four
channels: the ticker, the `adv` channel, the `ready` channel (set to nil
while a Ready batch is being processed by the dispatched goroutine) and
the stop channel.  We model which arm can fire in each loop state. -/

/-- One iteration of the `select` in the newer `Node.Start`. -/
inductive LoopEvent where
  | tick
  | takeReady
  | advSignal
  | stop
deriving DecidableEq, Repr

/-- Loop state: whether the `ready` channel is armed (non-nil), whether
a Ready batch is being processed (goroutine dispatched, `adv` not yet
received), and whether the loop has returned. -/
structure LoopState where
  readyArmed : Bool
  inFlight : Bool
  stopped : Bool
deriving DecidableEq, Repr

/-- Initial loop state: `ready := n.node.Ready()` armed, nothing in
flight. -/
def loopInit : LoopState := { readyArmed := true, inFlight := false, stopped := false }

/-- The `select` of the newer `Node.Start`: a tick is always selectable
(line 381); a Ready can only be taken while `ready` is non-nil and
taking it nils the channel and dispatches the processing goroutine
(lines 388-390); the `adv` receive re-arms `ready` and advances the
engine (lines 384-386); the stop channel is always selectable and
returns from the loop (line 463). -/
def loopStep (s : LoopState) : LoopEvent → Option LoopState
  | .tick => if s.stopped then none else some s
  | .takeReady =>
    if !s.stopped && s.readyArmed then some { s with readyArmed := false, inFlight := true }
    else none
  | .advSignal =>
    if !s.stopped && s.inFlight then some { s with inFlight := false, readyArmed := true }
    else none
  | .stop => if s.stopped then none else some { s with stopped := true }

/-- Run the loop from a state over a sequence of selected events. -/
def runLoop (s : LoopState) : List LoopEvent → Option LoopState
  | [] => some s
  | e :: es =>
    match loopStep s e with
    | none => none
    | some s1 => runLoop s1 es

/-! ### Raft node: ID generator seeding across restarts -/

end Raft

namespace Beehive

/-- The colony recorded for bee `id` in a registry (read through
`Bees`). -/
def colonyOf (r : registry) (id : Nat) : Option Colony :=
  (mapLookup r.Bees id).map (fun b => b.Colony)

end Beehive

/-! ## Helper lemmas -/

namespace Raft

/-- The loop invariant: while a Ready batch is in flight, the ready
channel is nil, so a second Ready cannot be selected. -/
theorem loopStep_inv (s s1 : LoopState) (e : LoopEvent)
    (hs : s.inFlight = true → s.readyArmed = false)
    (h : loopStep s e = some s1) : s1.inFlight = true → s1.readyArmed = false := by
  cases e <;> simp only [loopStep] at h
  · split at h
    · exact absurd h (by simp)
    · cases h; exact hs
  · split at h
    · cases h; intro _; rfl
    · exact absurd h (by simp)
  · split at h
    · cases h; simp
    · exact absurd h (by simp)
  · split at h
    · exact absurd h (by simp)
    · cases h; exact hs

theorem runLoop_inv (es : List LoopEvent) (s s1 : LoopState)
    (hs : s.inFlight = true → s.readyArmed = false)
    (h : runLoop s es = some s1) : s1.inFlight = true → s1.readyArmed = false := by
  induction es generalizing s with
  | nil => simp only [runLoop] at h; cases h; exact hs
  | cons e es ih =>
    simp only [runLoop] at h
    cases hstep : loopStep s e with
    | none => rw [hstep] at h; cases h
    | some s2 =>
      rw [hstep] at h
      exact ih s2 (loopStep_inv s s2 e hs hstep) h

end Raft

namespace Beehive

theorem cellStore.colony_updateColony (s : cellStore) (old new : Colony) (app k : String) :
    (s.updateColony old new).colony app k =
      if s.colony app k = some old then some new else s.colony app k := by
  rcases s with ⟨entries⟩
  induction entries with
  | nil => simp [cellStore.updateColony, cellStore.colony, mapLookup]
  | cons e t ih =>
    simp only [cellStore.updateColony, cellStore.colony, mapLookup, List.map_cons] at ih ⊢
    by_cases hkey : e.1 = (app, k)
    · by_cases hold : e.2 = old
      · rw [hold]
        simp only [if_pos rfl]
        rw [List.find?_cons_of_pos _ (by simpa using hkey),
          List.find?_cons_of_pos _ (by simpa using hkey)]
        simp [hold]
      · rw [if_neg hold]
        rw [List.find?_cons_of_pos _ (by simpa using hkey),
          List.find?_cons_of_pos _ (by simpa using hkey)]
        simp [hold]
    · have hkey2 : ((if e.2 = old then (e.1, new) else e) : (String × String) × Colony).1 ≠ (app, k) := by
        by_cases hold : e.2 = old <;> simp [hold, hkey]
      rw [List.find?_cons_of_neg _ (by simpa using hkey2),
        List.find?_cons_of_neg _ (by simpa using hkey)]
      exact ih

/-- Membership in the cells of the assigning colony's leader after one
assignment. -/
theorem cellStore.assign_cells_mem (s : cellStore) (app k : String) (c : Colony) (x : String) :
    x ∈ (s.assign app k c).cells c.Leader ↔ (x = k ∨ x ∈ s.cells c.Leader) := by
  have hcells : (s.assign app k c).cells c.Leader =
      k :: ((s.entries.filter (fun e => !decide (e.1 = (app, k)))).filter
        (fun e => e.2.Leader == c.Leader)).map (fun e => e.1.2) := by
    simp only [cellStore.assign, cellStore.cells, mapInsert]
    rw [List.filter_cons_of_pos (by simp)]
    simp
  rw [hcells]
  simp only [List.mem_cons, cellStore.cells]
  constructor
  · rintro (h1 | h2)
    · exact Or.inl h1
    · right
      rcases List.mem_map.mp h2 with ⟨e, he, hex⟩
      have he1 := List.mem_filter.mp he
      have he2 := List.mem_filter.mp he1.1
      exact List.mem_map.mpr ⟨e, List.mem_filter.mpr ⟨he2.1, he1.2⟩, hex⟩
  · rintro (h1 | h2)
    · exact Or.inl h1
    · rcases List.mem_map.mp h2 with ⟨e, he, hex⟩
      have he1 := List.mem_filter.mp he
      by_cases hek : e.1 = (app, k)
      · left
        rw [← hex, hek]
      · right
        refine List.mem_map.mpr
          ⟨e, List.mem_filter.mpr ⟨List.mem_filter.mpr ⟨he1.1, ?_⟩, he1.2⟩, hex⟩
        simpa using hek

theorem cellStore.assignAll_cells_mem (app : String) (c : Colony) (ks : List String) :
    ∀ (s : cellStore) (x : String),
      x ∈ (s.assignAll app ks c).cells c.Leader ↔ (x ∈ ks ∨ x ∈ s.cells c.Leader) := by
  induction ks with
  | nil => intro s x; simp [cellStore.assignAll]
  | cons k t ih =>
    intro s x
    simp only [cellStore.assignAll]
    rw [ih]
    rw [cellStore.assign_cells_mem]
    simp only [List.mem_cons]
    tauto

theorem cellStore.assign_keysNodup (s : cellStore) (app k : String) (c : Colony)
    (h : (s.entries.map (fun e => e.1)).Nodup) :
    ((s.assign app k c).entries.map (fun e => e.1)).Nodup := by
  simp only [cellStore.assign, mapInsert, List.map_cons, List.nodup_cons]
  constructor
  · intro hmem
    rcases List.mem_map.mp hmem with ⟨e, he, hek⟩
    have := (List.mem_filter.mp he).2
    simp only [Bool.not_eq_true', decide_eq_false_iff_not] at this
    exact this hek
  · exact ((List.filter_sublist s.entries).map (fun e => e.1)).nodup h

theorem cellStore.assignAll_keysNodup (app : String) (c : Colony) (ks : List String) :
    ∀ (s : cellStore), (s.entries.map (fun e => e.1)).Nodup →
      ((s.assignAll app ks c).entries.map (fun e => e.1)).Nodup := by
  induction ks with
  | nil => intro s h; exact h
  | cons k t ih =>
    intro s h
    exact ih _ (cellStore.assign_keysNodup s app k c h)

theorem cellStore.assign_ownedApp (s : cellStore) (app k : String) (c : Colony) (l : Nat)
    (h : ∀ e ∈ s.entries, e.2.Leader = l → e.1.1 = app) :
    ∀ e ∈ (s.assign app k c).entries, e.2.Leader = l → e.1.1 = app := by
  intro e he hl
  simp only [cellStore.assign, mapInsert, List.mem_cons] at he
  rcases he with he | he
  · rw [he]
  · exact h e (List.mem_of_mem_filter he) hl

theorem cellStore.assignAll_ownedApp (app : String) (c : Colony) (l : Nat) (ks : List String) :
    ∀ (s : cellStore), (∀ e ∈ s.entries, e.2.Leader = l → e.1.1 = app) →
      ∀ e ∈ (s.assignAll app ks c).entries, e.2.Leader = l → e.1.1 = app := by
  induction ks with
  | nil => intro s h; exact h
  | cons k t ih =>
    intro s h
    exact ih _ (cellStore.assign_ownedApp s app k c l h)

/-- When every entry owned by `l` lives under one application and the
store keys are duplicate-free (Go maps cannot hold duplicate keys), the
cell list of `l` has no duplicates. -/
theorem cellStore.cells_nodup (s : cellStore) (l : Nat) (app : String)
    (hkeys : (s.entries.map (fun e => e.1)).Nodup)
    (happ : ∀ e ∈ s.entries, e.2.Leader = l → e.1.1 = app) :
    (s.cells l).Nodup := by
  unfold cellStore.cells
  have hsub : ((s.entries.filter (fun e => e.2.Leader == l)).map (fun e => e.1)).Nodup :=
    ((List.filter_sublist s.entries).map (fun e => e.1)).nodup hkeys
  have hconst : ∀ p ∈ (s.entries.filter (fun e => e.2.Leader == l)).map (fun e => e.1),
      p.1 = app := by
    intro p hp
    rcases List.mem_map.mp hp with ⟨e, he, hep⟩
    have hmem := List.mem_filter.mp he
    have howned : e.2.Leader = l := by simpa using hmem.2
    rw [← hep]
    exact happ e hmem.1 howned
  have : (s.entries.filter (fun e => e.2.Leader == l)).map (fun e => e.1.2) =
      ((s.entries.filter (fun e => e.2.Leader == l)).map (fun e => e.1)).map
        (fun p => p.2) := by
    rw [List.map_map]
    rfl
  rw [this]
  refine hsub.map_on ?_
  intro x hx y hy hxy
  have hxa := hconst x hx
  have hya := hconst y hy
  cases x with
  | mk x1 x2 =>
    cases y with
    | mk y1 y2 =>
      simp only at hxa hya hxy
      rw [hxa, hya, hxy]

/-- The scan loop of `registry.lock` over cells none of which is
mapped: nothing is locked, every cell is queued in `openk`, the colony
and the store are untouched. -/
theorem lockLoop_all_unmapped (app : String) (ks : List String) :
    ∀ (acc : List String) (C : Colony) (S : cellStore),
      (∀ k ∈ ks, S.colony app k = none) →
      lockLoop app ks { locked := false, openk := acc, col := C, store := S } =
        some { locked := false, openk := acc ++ ks, col := C, store := S } := by
  induction ks with
  | nil => intro acc C S h; simp [lockLoop]
  | cons k t ih =>
    intro acc C S h
    simp only [lockLoop]
    rw [h k (List.mem_cons_self k t)]
    simp only [Bool.false_eq_true, if_false]
    rw [ih (acc ++ [k]) C S (fun x hx => h x (List.mem_cons_of_mem k hx))]
    simp

/-- The scan loop of `registry.lock` over cells all mapped to the
colony already carried by the scan state: no conflict, the colony and
store are unchanged, and the loop ends locked when any cell was seen. -/
theorem lockLoop_all_mapped (app : String) (ks : List String) :
    ∀ (L : Bool) (acc : List String) (C : Colony) (S : cellStore),
      (∀ k ∈ ks, S.colony app k = some C) →
      lockLoop app ks { locked := L, openk := acc, col := C, store := S } =
        some { locked := L || !ks.isEmpty, openk := acc, col := C, store := S } := by
  induction ks with
  | nil => intro L acc C S h; simp [lockLoop]
  | cons k t ih =>
    intro L acc C S h
    simp only [lockLoop]
    rw [h k (List.mem_cons_self k t)]
    have heq : Colony.Equals C C = true := by simp [Colony.Equals]
    simp only [heq, Bool.not_true, Bool.and_false, Bool.false_eq_true, if_false]
    rw [ih true acc C S (fun x hx => h x (List.mem_cons_of_mem k hx))]
    simp

/-- `setBeeColony` on a present bee: the bee's colony is set, other
bees are untouched, presence is preserved. -/
theorem setBeeColony_spec (bees : List (Nat × BeeInfo)) (id : Nat) (c : Colony)
    (b : BeeInfo) (h : mapLookup bees id = some b) :
    setBeeColony bees id c = some (mapInsert bees id { b with Colony := c }) := by
  simp [setBeeColony, h]

/-- The old-follower loop of `updateColony`: every follower of the old
colony not contained in the new one gets the nil colony; everything
else is untouched; presence of any bee is unchanged. -/
theorem clearOldFollowers_spec (new : Colony) (fs : List Nat) :
    ∀ (bees : List (Nat × BeeInfo)),
      (∀ f ∈ fs, new.Contains f = false → (mapLookup bees f).isSome = true) →
      ∃ b2, clearOldFollowers new bees fs = some b2
        ∧ (∀ j, ¬(j ∈ fs ∧ new.Contains j = false) → mapLookup b2 j = mapLookup bees j)
        ∧ (∀ j ∈ fs, new.Contains j = false →
            (mapLookup b2 j).map (fun b => b.Colony) = some Colony.nilC)
        ∧ (∀ j, (mapLookup b2 j).isSome = (mapLookup bees j).isSome) := by
  induction fs with
  | nil =>
    intro bees h
    exact ⟨bees, rfl, fun j _ => rfl, fun j hj => absurd hj (List.not_mem_nil j), fun j => rfl⟩
  | cons f fs ih =>
    intro bees h
    by_cases hcont : new.Contains f = true
    · rcases ih bees (fun x hx => h x (List.mem_cons_of_mem f hx)) with
        ⟨b2, hrun, huntouched, htouched, hpres⟩
      refine ⟨b2, ?_, ?_, ?_, hpres⟩
      · simpa [clearOldFollowers, hcont] using hrun
      · intro j hj
        refine huntouched j ?_
        rintro ⟨hj1, hj2⟩
        exact hj ⟨List.mem_cons_of_mem f hj1, hj2⟩
      · intro j hj hjc
        rcases List.mem_cons.mp hj with hjf | hjfs
        · rw [hjf] at hjc
          rw [hjc] at hcont
          cases hcont
        · exact htouched j hjfs hjc
    · have hcf : new.Contains f = false := by
        cases hcf2 : new.Contains f
        · rfl
        · exact absurd hcf2 hcont
      have hfpres := h f (List.mem_cons_self f fs) hcf
      rcases hb : mapLookup bees f with _ | b
      · rw [hb] at hfpres; cases hfpres
      · have hstep := setBeeColony_spec bees f Colony.nilC b hb
        set bees1 := mapInsert bees f { b with Colony := Colony.nilC } with hbees1
        have hpre1 : ∀ x ∈ fs, new.Contains x = false → (mapLookup bees1 x).isSome = true := by
          intro x hx hxc
          rw [hbees1, mapLookup_insert]
          by_cases hxf : x = f
          · simp [hxf]
          · rw [if_neg hxf]
            exact h x (List.mem_cons_of_mem f hx) hxc
        rcases ih bees1 hpre1 with ⟨b2, hrun, huntouched, htouched, hpres⟩
        refine ⟨b2, ?_, ?_, ?_, ?_⟩
        · simp only [clearOldFollowers, hcf, Bool.false_eq_true, if_false]
          rw [hstep]
          exact hrun
        · intro j hj
          have hjf : j ≠ f := by
            intro hjf
            exact hj ⟨hjf ▸ List.mem_cons_self f fs, hjf ▸ hcf⟩
          have h1 : mapLookup b2 j = mapLookup bees1 j := by
            refine huntouched j ?_
            rintro ⟨hj1, hj2⟩
            exact hj ⟨List.mem_cons_of_mem f hj1, hj2⟩
          rw [h1, hbees1, mapLookup_insert_ne _ _ _ _ hjf]
        · intro j hj hjc
          rcases List.mem_cons.mp hj with hjf | hjfs
          · by_cases hjfs2 : j ∈ fs
            · exact htouched j hjfs2 hjc
            · have h1 : mapLookup b2 j = mapLookup bees1 j := by
                refine huntouched j ?_
                rintro ⟨hj1, _⟩
                exact hjfs2 hj1
              rw [h1, hbees1, hjf, mapLookup_insert_self]
              rfl
          · exact htouched j hjfs hjc
        · intro j
          rw [hpres j, hbees1, mapLookup_insert]
          by_cases hjf : j = f
          · simp [hjf, hb]
          · rw [if_neg hjf]

/-- The new-follower loop of `updateColony`: every follower of the new
colony gets the new colony; other bees are untouched; presence is
preserved. -/
theorem setNewFollowers_spec (new : Colony) (fs : List Nat) :
    ∀ (bees : List (Nat × BeeInfo)),
      (∀ f ∈ fs, (mapLookup bees f).isSome = true) →
      ∃ b2, setNewFollowers new bees fs = some b2
        ∧ (∀ j, j ∉ fs → mapLookup b2 j = mapLookup bees j)
        ∧ (∀ j ∈ fs, (mapLookup b2 j).map (fun b => b.Colony) = some new)
        ∧ (∀ j, (mapLookup b2 j).isSome = (mapLookup bees j).isSome) := by
  induction fs with
  | nil =>
    intro bees h
    exact ⟨bees, rfl, fun j _ => rfl, fun j hj => absurd hj (List.not_mem_nil j), fun j => rfl⟩
  | cons f fs ih =>
    intro bees h
    have hfpres := h f (List.mem_cons_self f fs)
    rcases hb : mapLookup bees f with _ | b
    · rw [hb] at hfpres; cases hfpres
    · have hstep := setBeeColony_spec bees f new b hb
      set bees1 := mapInsert bees f { b with Colony := new } with hbees1
      have hpre1 : ∀ x ∈ fs, (mapLookup bees1 x).isSome = true := by
        intro x hx
        rw [hbees1, mapLookup_insert]
        by_cases hxf : x = f
        · simp [hxf]
        · rw [if_neg hxf]
          exact h x (List.mem_cons_of_mem f hx)
      rcases ih bees1 hpre1 with ⟨b2, hrun, huntouched, htouched, hpres⟩
      refine ⟨b2, ?_, ?_, ?_, ?_⟩
      · simp only [setNewFollowers]
        rw [hstep]
        exact hrun
      · intro j hj
        have hjf : j ≠ f := fun hjf => hj (hjf ▸ List.mem_cons_self f fs)
        have hjfs : j ∉ fs := fun hjfs => hj (List.mem_cons_of_mem f hjfs)
        rw [huntouched j hjfs, hbees1, mapLookup_insert_ne _ _ _ _ hjf]
      · intro j hj
        rcases List.mem_cons.mp hj with hjf | hjfs
        · by_cases hjfs2 : j ∈ fs
          · exact htouched j hjfs2
          · rw [huntouched j hjfs2, hbees1, hjf, mapLookup_insert_self]
            rfl
        · exact htouched j hjfs
      · intro j
        rw [hpres j, hbees1, mapLookup_insert]
        by_cases hjf : j = f
        · simp [hjf, hb]
        · rw [if_neg hjf]

end Beehive

/-! ## Claims -/

open Beehive Raft

/-- C1: for a request whose log entry is applied before the caller's
context fires or the node stops, `Process` (newer variant) returns the
reply produced by `Store.Apply` on the request's data and surfaces a
non-nil store error as the call's error; the other `select` arms return
only the cancellation and stopped errors; the response reaches the
registered waiter through the line; the older `Do` likewise returns the
store-produced reply. -/
theorem C1_process_returns_store_result {δ ρ ε : Type}
    (apply : δ → Option ρ × Option ε) (applyOld : δ → ρ) (id : RequestID) (d : δ)
    (waiters : List RequestID) :
    applyEntry apply (.request { ID := id, Data := some d })
      = .response (responseFor apply id d)
    ∧ processReturn (.deliver (responseFor apply id d))
      = ((apply d).1, ((apply d).2).map ProcessErr.storeErr)
    ∧ (processReturn .ctxDone : Option ρ × Option (ProcessErr ε)) = (none, some .cancelled)
    ∧ (processReturn .nodeDone : Option ρ × Option (ProcessErr ε)) = (none, some .stopped)
    ∧ (lineCall (id :: waiters) (responseFor apply id d)).1 = some (responseFor apply id d)
    ∧ (doReturn (.deliver (applyOld d)) : Option ρ × Option (ProcessErr ε))
      = (some (applyOld d), none) := by
  refine ⟨rfl, rfl, rfl, rfl, ?_, rfl⟩
  simp [lineCall, responseFor]

/-- C6: for an `addBee` with a non-zero id at most `BeeID`, a
registered id yields `ErrDuplicateBee` with the whole registry state
unchanged, and an unregistered id inserts the bee into `Bees`. -/
theorem C6_addBee_duplicate (r : registry) (info : BeeInfo)
    (h0 : info.ID ≠ 0) (hle : info.ID ≤ r.BeeID) :
    ((mapLookup r.Bees info.ID).isSome = true →
      r.Apply (.addBee info) = .err .ErrDuplicateBee r)
    ∧ ((mapLookup r.Bees info.ID).isSome = false →
      r.Apply (.addBee info)
        = .ok .noReply { r with Bees := mapInsert r.Bees info.ID info }) := by
  have hnlt : ¬r.BeeID < info.ID := Nat.not_lt.mpr hle
  constructor <;> intro h <;> simp [registry.Apply, registry.addBeeGo, h0, h, hnlt]

/-- C6 witness: a second `addBee` with id 5 on a registry already
holding bee 5 fails with `ErrDuplicateBee` and changes nothing. -/
theorem C6_addBee_duplicate_witness :
    registry.Apply
      { HiveID := 1, BeeID := 5, Hives := [],
        Bees := [(5, { ID := 5, Hive := 1, App := "x", Colony := Colony.nilC,
                       Detached := false })],
        Store := newCellStore }
      (.addBee { ID := 5, Hive := 1, App := "x", Colony := Colony.nilC, Detached := false })
      = .err .ErrDuplicateBee
        { HiveID := 1, BeeID := 5, Hives := [],
          Bees := [(5, { ID := 5, Hive := 1, App := "x", Colony := Colony.nilC,
                         Detached := false })],
          Store := newCellStore } :=
  (C6_addBee_duplicate _ _ (by decide) (by decide)).1 (by decide)

/-- C7 counterexample: the first `newHiveID{Addr:"a"}` on a fresh
registry replies 2 and records hive 2, but applying a second
`newHiveID{Addr:"a"}` is fatal (the `addHive` duplicate-address check
fires for hive 2 versus the new id 3), so it neither returns the
incremented id nor records a hive. -/
theorem C7_newHiveID_cex :
    newRegistry.Apply (.newHiveID "a")
      = .ok (.num 2)
        { HiveID := 2, BeeID := 0, Hives := [(2, { ID := 2, Addr := "a" })],
          Bees := [], Store := newCellStore }
    ∧ registry.Apply
        { HiveID := 2, BeeID := 0, Hives := [(2, { ID := 2, Addr := "a" })],
          Bees := [], Store := newCellStore }
        (.newHiveID "a") = .fatal := by
  exact ⟨by decide, by decide⟩

/-- C7 (amended): a fresh registry has `HiveID = 1`, and an applied
`newHiveID{Addr}` increments `HiveID`, returns the incremented value
and, for non-empty `Addr`, records `HiveInfo{new id, Addr}` — provided
no already-registered hive holds the same address with an id different
from the new one (otherwise `addHive` halts the replica fatally). -/
theorem C7_newHiveID_amended (r : registry) (addr : String)
    (hdup : ∀ e ∈ r.Hives, e.2.Addr = addr → e.2.ID = r.HiveID + 1) :
    newRegistry.HiveID = 1
    ∧ ∃ r1, r.Apply (.newHiveID addr) = .ok (.num (r.HiveID + 1)) r1
        ∧ r1.HiveID = r.HiveID + 1
        ∧ r1.Hives = (if addr = "" then r.Hives
            else mapInsert r.Hives (r.HiveID + 1) { ID := r.HiveID + 1, Addr := addr })
        ∧ r1.BeeID = r.BeeID ∧ r1.Bees = r.Bees ∧ r1.Store = r.Store := by
  have hany : (r.Hives.any fun e => e.2.Addr == addr && !(e.2.ID == r.HiveID + 1)) = false := by
    rw [List.any_eq_false]
    intro e he hcontra
    rw [Bool.and_eq_true] at hcontra
    have h1 : e.2.Addr = addr := by simpa using hcontra.1
    have h2 : e.2.ID ≠ r.HiveID + 1 := by simpa using hcontra.2
    exact h2 (hdup e he h1)
  refine ⟨rfl, ?_⟩
  by_cases haddr : addr = ""
  · refine ⟨{ r with HiveID := r.HiveID + 1 }, ?_, rfl, by rw [if_pos haddr], rfl, rfl, rfl⟩
    simp [registry.Apply, registry.newHiveIDGo, haddr]
  · refine ⟨{ r with
              HiveID := r.HiveID + 1,
              Hives := mapInsert r.Hives (r.HiveID + 1) { ID := r.HiveID + 1, Addr := addr } },
      ?_, rfl, by rw [if_neg haddr], rfl, rfl, rfl⟩
    simp [registry.Apply, registry.newHiveIDGo, registry.addHive, haddr, hany]

/-- C7 witness: the first `newHiveID{Addr:"a"}` on a fresh registry. -/
theorem C7_newHiveID_amended_witness :
    newRegistry.HiveID = 1
    ∧ ∃ r1, newRegistry.Apply (.newHiveID "a") = .ok (.num (newRegistry.HiveID + 1)) r1
        ∧ r1.HiveID = newRegistry.HiveID + 1
        ∧ r1.Hives = (if "a" = "" then newRegistry.Hives
            else mapInsert newRegistry.Hives (newRegistry.HiveID + 1)
              { ID := newRegistry.HiveID + 1, Addr := "a" })
        ∧ r1.BeeID = newRegistry.BeeID ∧ r1.Bees = newRegistry.Bees
        ∧ r1.Store = newRegistry.Store :=
  C7_newHiveID_amended newRegistry "a" (by decide)

/-- C8: two registry replicas that apply the same sequence of requests
and conf changes from a fresh state serialize to identical bytes. -/
theorem C8_save_deterministic (ops : List LogOp) (r1 r2 : Option registry)
    (h1 : r1 = applySeq newRegistry ops) (h2 : r2 = applySeq newRegistry ops) :
    r1.map registry.Save = r2.map registry.Save := by
  rw [h1, h2]

/-- C8 witness: two replicas of a concrete two-entry log. -/
theorem C8_save_deterministic_witness :
    (applySeq newRegistry [.req (.newHiveID "a"), .req .newBeeID]).map registry.Save
      = (applySeq newRegistry [.req (.newHiveID "a"), .req .newBeeID]).map registry.Save :=
  C8_save_deterministic [.req (.newHiveID "a"), .req .newBeeID] _ _ rfl rfl

/-- C9 (amended): in every reachable state of the newer `Node.Start`
loop, while a Ready batch is in flight the ready channel is nil, so a
second Ready cannot be taken before its advance is signalled — at most
one Ready is in flight at any time.  (Ticks and stop remain selectable
during that window; see the counterexample.) -/
theorem C9_ready_single_flight_amended (tr : List LoopEvent) (s : LoopState)
    (h : runLoop loopInit tr = some s) :
    (s.inFlight = true → s.readyArmed = false)
    ∧ (s.inFlight = true → loopStep s .takeReady = none) := by
  have hinv := runLoop_inv tr loopInit s (by intro hh; exact absurd hh (by decide)) h
  refine ⟨hinv, fun hf => ?_⟩
  have hra := hinv hf
  simp [loopStep, hra]

/-- C9 witness: the state reached after taking one Ready. -/
theorem C9_ready_single_flight_witness :
    (({ readyArmed := false, inFlight := true, stopped := false } : LoopState).inFlight = true →
      ({ readyArmed := false, inFlight := true, stopped := false } : LoopState).readyArmed = false)
    ∧ (({ readyArmed := false, inFlight := true, stopped := false } : LoopState).inFlight = true →
      loopStep { readyArmed := false, inFlight := true, stopped := false } .takeReady = none) :=
  C9_ready_single_flight_amended [.takeReady] _ (by decide)

/-- C9 counterexample: after a Ready is taken and before its advance is
signalled, the loop still processes a tick (the ticker arm of the
`select` stays live while the dispatched goroutine runs) and a stop is
also processed in that window. -/
theorem C9_loop_tick_during_ready_cex :
    runLoop loopInit [.takeReady, .tick]
      = some { readyArmed := false, inFlight := true, stopped := false }
    ∧ loopStep { readyArmed := false, inFlight := true, stopped := false } .stop
      = some { readyArmed := false, inFlight := true, stopped := true } := by
  decide

/-- C3: a committed conf-change entry (of Add or Remove type) is applied
to the engine unneutered and notifies the Store only when it is valid
against the current ConfState (non-zero NodeID; Add not already a
member; Remove a member); a failing entry has its NodeID zeroed, the
neutered cc is fed to the engine (leaving membership unchanged), the
Store is not notified, and the node does not halt. -/
theorem C3_conf_change_validation {ε : Type} (storeCc : ConfChange → NodeInfo → Option ε)
    (cc : ConfChange) (confs : List Nat) (hty : cc.Typ ≠ CcType.other) :
    (validConfChange cc confs = .valid ↔
      (cc.NodeID ≠ 0
        ∧ (cc.Typ = .add → containsNode confs cc.NodeID = false)
        ∧ (cc.Typ = .remove → containsNode confs cc.NodeID = true)))
    ∧ (validConfChange cc confs = .invalid →
        applyConfChange storeCc confs cc =
          .done { engineCC := { cc with NodeID := 0 }, confState := confs,
                  storeCall := none, lineResp := none, retErr := true })
    ∧ (∀ eff, applyConfChange storeCc confs cc = .done eff → eff.storeCall.isSome = true →
        validConfChange cc confs = .valid
        ∧ eff.engineCC = cc
        ∧ eff.confState = engineApplyCc confs cc)
    ∧ (validConfChange cc confs = .valid → applyConfChange storeCc confs cc ≠ .fatal →
        ∃ eff, applyConfChange storeCc confs cc = .done eff
          ∧ eff.storeCall.isSome = true ∧ eff.engineCC = cc ∧ eff.retErr = false) := by
  refine ⟨?_, ?_, ?_, ?_⟩
  · by_cases hid : cc.NodeID = 0
    · simp [validConfChange, hid]
    · cases hty2 : cc.Typ with
      | add =>
        cases hc : containsNode confs cc.NodeID <;>
          simp [validConfChange, hid, hty2, hc]
      | remove =>
        cases hc : containsNode confs cc.NodeID <;>
          simp [validConfChange, hid, hty2, hc]
      | other => exact absurd hty2 hty
  · intro h
    simp only [applyConfChange, h]
    simp [engineApplyCc]
  · intro eff heff hsome
    cases hv : validConfChange cc confs with
    | fatalType =>
      simp only [applyConfChange, hv] at heff
      cases heff
    | invalid =>
      simp only [applyConfChange, hv] at heff
      cases heff
      simp at hsome
    | valid =>
      cases hctx : cc.Context with
      | empty =>
        simp only [applyConfChange, hv, hctx] at heff
        cases heff
        exact ⟨rfl, rfl, rfl⟩
      | info i =>
        simp only [applyConfChange, hv, hctx] at heff
        split at heff
        · exact absurd heff (by simp)
        · cases heff
          exact ⟨rfl, rfl, rfl⟩
      | request id i =>
        simp only [applyConfChange, hv, hctx] at heff
        cases heff
        exact ⟨rfl, rfl, rfl⟩
      | requestOther id =>
        simp only [applyConfChange, hv, hctx] at heff
        cases heff
      | garbage =>
        simp only [applyConfChange, hv, hctx] at heff
        cases heff
  · intro hv hnf
    cases hctx : cc.Context with
    | empty =>
      simp only [applyConfChange, hv, hctx]
      exact ⟨_, rfl, rfl, rfl, rfl⟩
    | info i =>
      simp only [applyConfChange, hv, hctx] at hnf ⊢
      by_cases hii : i.ID = cc.NodeID
      · rw [if_neg (show ¬(i.ID ≠ cc.NodeID) from fun hc => hc hii)] at hnf ⊢
        exact ⟨_, rfl, rfl, rfl, rfl⟩
      · rw [if_pos hii] at hnf
        exact absurd rfl hnf
    | request id i =>
      simp only [applyConfChange, hv, hctx]
      exact ⟨_, rfl, rfl, rfl, rfl⟩
    | requestOther id =>
      simp only [applyConfChange, hv, hctx] at hnf
      exact absurd rfl hnf
    | garbage =>
      simp only [applyConfChange, hv, hctx] at hnf
      exact absurd rfl hnf

/-- C3 witness: an Add of an existing member is invalid — the cc is
neutered, the membership is unchanged, the Store is not notified, and
the outcome is not fatal. -/
theorem C3_conf_change_validation_witness :
    applyConfChange (fun _ _ => (none : Option Unit)) [1]
        { Typ := .add, NodeID := 1, Context := .empty } =
      .done { engineCC := { Typ := .add, NodeID := 0, Context := .empty }, confState := [1],
              storeCall := none, lineResp := none, retErr := true } :=
  (C3_conf_change_validation (fun _ _ => (none : Option Unit))
    { Typ := .add, NodeID := 1, Context := .empty } [1] (by decide)).2.1 (by decide)

/-- C10: `transferCells{From,To}` fails with `ErrNoSuchBee` when
`From.Leader` is not registered, fails with `ErrInvalidParam` when it
owns no cells, and otherwise reassigns every cell owned by `From.Leader`
to `To` (all its cells live under the leader bee's app, registry
invariant 3) leaving `Bees`, `Hives`, `BeeID` and `HiveID` unchanged. -/
theorem C10_transfer_cells (r : registry) (fromC toC : Colony) :
    (mapLookup r.Bees fromC.Leader = none →
      r.Apply (.transferCells fromC toC) = .err .ErrNoSuchBee r)
    ∧ (∀ b, mapLookup r.Bees fromC.Leader = some b →
        r.Store.cells fromC.Leader = [] →
        r.Apply (.transferCells fromC toC) = .err .ErrInvalidParam r)
    ∧ (∀ b, mapLookup r.Bees fromC.Leader = some b →
        r.Store.cells fromC.Leader ≠ [] →
        (∀ e ∈ r.Store.entries, e.2.Leader = fromC.Leader → e.1.1 = b.App) →
        ∃ r1, r.Apply (.transferCells fromC toC) = .ok .noReply r1
          ∧ (∀ app k c, r.Store.colony app k = some c → c.Leader = fromC.Leader →
              r1.Store.colony app k = some toC)
          ∧ r1.Bees = r.Bees ∧ r1.Hives = r.Hives ∧ r1.BeeID = r.BeeID
          ∧ r1.HiveID = r.HiveID) := by
  refine ⟨?_, ?_, ?_⟩
  · intro h
    simp [registry.Apply, registry.transferGo, h]
  · intro b hb hcells
    simp [registry.Apply, registry.transferGo, hb, hcells]
  · intro b hb hne happ
    have hie : (r.Store.cells fromC.Leader).isEmpty = false := by
      cases hcells : r.Store.cells fromC.Leader with
      | nil => exact absurd hcells hne
      | cons a t => rfl
    refine ⟨{ r with
              Store := r.Store.assignAll b.App (r.Store.cells fromC.Leader) toC },
      ?_, ?_, rfl, rfl, rfl, rfl⟩
    · simp [registry.Apply, registry.transferGo, hb, hie]
    · intro app k c hcol hcl
      have hmem : ((app, k), c) ∈ r.Store.entries := mapLookup_mem _ _ _ hcol
      have happk : app = b.App := happ ((app, k), c) hmem hcl
      have hkmem : k ∈ r.Store.cells fromC.Leader := by
        unfold cellStore.cells
        exact List.mem_map.mpr
          ⟨((app, k), c), List.mem_filter.mpr ⟨hmem, by simpa using hcl⟩, rfl⟩
      show (r.Store.assignAll b.App (r.Store.cells fromC.Leader) toC).colony app k = some toC
      rw [cellStore.colony_assignAll, if_pos ⟨happk, hkmem⟩]

/-- C10 witness: bee 7 of app "a" owns cell c1; transferring its cells
to colony 9 reassigns c1 and leaves the rest of the registry alone. -/
theorem C10_transfer_cells_witness :
    ∃ r1,
      registry.Apply
        { HiveID := 1, BeeID := 7, Hives := [],
          Bees := [(7, { ID := 7, Hive := 1, App := "a",
                         Colony := { Leader := 7, Followers := [] }, Detached := false })],
          Store := { entries := [(("a", "c1"), { Leader := 7, Followers := [] })] } }
        (.transferCells { Leader := 7, Followers := [] } { Leader := 9, Followers := [] })
        = .ok .noReply r1
      ∧ (∀ app k c,
          cellStore.colony
            { entries := [(("a", "c1"), { Leader := 7, Followers := [] })] } app k = some c →
          c.Leader = ({ Leader := 7, Followers := [] } : Colony).Leader →
          r1.Store.colony app k = some { Leader := 9, Followers := [] })
      ∧ r1.Bees = [(7, { ID := 7, Hive := 1, App := "a",
                         Colony := { Leader := 7, Followers := [] }, Detached := false })]
      ∧ r1.Hives = [] ∧ r1.BeeID = 7 ∧ r1.HiveID = 1 :=
  (C10_transfer_cells
    { HiveID := 1, BeeID := 7, Hives := [],
      Bees := [(7, { ID := 7, Hive := 1, App := "a",
                     Colony := { Leader := 7, Followers := [] }, Detached := false })],
      Store := { entries := [(("a", "c1"), { Leader := 7, Followers := [] })] } }
    { Leader := 7, Followers := [] } { Leader := 9, Followers := [] }).2.2
    { ID := 7, Hive := 1, App := "a", Colony := { Leader := 7, Followers := [] },
      Detached := false }
    (by decide) (by decide) (by decide)

/-- C5 counterexample: on a registry whose cell store already holds a
cell ("b","z") owned by colony 7, `lockMappedCell{7,"a",[c1]}` succeeds
and is idempotent, but the cells owned by leader 7 afterwards are
["c1","z"] — not exactly the submitted list: "z" is owned by 7 yet is
not among the requested cells. -/
theorem C5_lock_extraneous_cells_cex :
    registry.Apply
      { HiveID := 1, BeeID := 0, Hives := [], Bees := [],
        Store := { entries := [(("b", "z"), { Leader := 7, Followers := [] })] } }
      (.lockMappedCell { Leader := 7, Followers := [] } "a" ["c1"])
      = .ok (.col { Leader := 7, Followers := [] })
        { HiveID := 1, BeeID := 0, Hives := [], Bees := [],
          Store := { entries := [(("a", "c1"), { Leader := 7, Followers := [] }),
                                 (("b", "z"), { Leader := 7, Followers := [] })] } }
    ∧ registry.Apply
        { HiveID := 1, BeeID := 0, Hives := [], Bees := [],
          Store := { entries := [(("a", "c1"), { Leader := 7, Followers := [] }),
                                 (("b", "z"), { Leader := 7, Followers := [] })] } }
        (.lockMappedCell { Leader := 7, Followers := [] } "a" ["c1"])
      = .ok (.col { Leader := 7, Followers := [] })
        { HiveID := 1, BeeID := 0, Hives := [], Bees := [],
          Store := { entries := [(("a", "c1"), { Leader := 7, Followers := [] }),
                                 (("b", "z"), { Leader := 7, Followers := [] })] } }
    ∧ "z" ∈ cellStore.cells
        { entries := [(("a", "c1"), { Leader := 7, Followers := [] }),
                      (("b", "z"), { Leader := 7, Followers := [] })] } 7
    ∧ "z" ∉ (["c1"] : List String) := by
  refine ⟨by decide, by decide, by decide, by decide⟩

/-- C5 (amended): `lockMappedCell` is idempotent: for a colony with a
non-zero leader that owns no cell beforehand, applying the request to a
registry in which none of the requested cells is mapped returns the
submitted colony and assigns every requested cell to it, and applying
the identical request again returns the same colony and leaves the
assignments unchanged, so that the leader then owns exactly the
requested cells with no duplication.  (The store's keys are
duplicate-free, as Go map keys always are.) -/
theorem C5_lock_idempotent (r : registry) (C : Colony) (a : String) (ks : List String)
    (hL : C.Leader ≠ 0)
    (hUnmapped : ∀ k ∈ ks, r.Store.colony a k = none)
    (hOwn : r.Store.cells C.Leader = [])
    (hWf : (r.Store.entries.map (fun e => e.1)).Nodup) :
    ∃ r1, r.Apply (.lockMappedCell C a ks) = .ok (.col C) r1
      ∧ (∀ k ∈ ks, r1.Store.colony a k = some C)
      ∧ r1.Apply (.lockMappedCell C a ks) = .ok (.col C) r1
      ∧ (∀ x, x ∈ r1.Store.cells C.Leader ↔ x ∈ ks)
      ∧ (r1.Store.cells C.Leader).Nodup := by
  have hloop1 := lockLoop_all_unmapped a ks [] C r.Store hUnmapped
  refine ⟨{ r with Store := r.Store.assignAll a ks C }, ?_, ?_, ?_, ?_, ?_⟩
  · simp [registry.Apply, registry.lockGo, hL, hloop1]
  · intro k hk
    show (r.Store.assignAll a ks C).colony a k = some C
    rw [cellStore.colony_assignAll, if_pos ⟨rfl, hk⟩]
  · have hmapped : ∀ k ∈ ks, (r.Store.assignAll a ks C).colony a k = some C := by
      intro k hk
      rw [cellStore.colony_assignAll, if_pos ⟨rfl, hk⟩]
    have hloop2 := lockLoop_all_mapped a ks false [] C (r.Store.assignAll a ks C) hmapped
    by_cases hks : ks.isEmpty
    · have hksnil : ks = [] := List.isEmpty_iff.mp hks
      subst hksnil
      simp [registry.Apply, registry.lockGo, hL, hloop1, cellStore.assignAll]
    · have hkse : ks.isEmpty = false := by
        cases h2 : ks.isEmpty
        · rfl
        · exact absurd h2 hks
      simp [registry.Apply, registry.lockGo, hL, hloop2, hkse, cellStore.assignAll]
  · intro x
    show x ∈ (r.Store.assignAll a ks C).cells C.Leader ↔ x ∈ ks
    rw [cellStore.assignAll_cells_mem]
    simp [hOwn]
  · have happ0 : ∀ e ∈ r.Store.entries, e.2.Leader = C.Leader → e.1.1 = a := by
      intro e he hl
      exfalso
      have hx : e.1.2 ∈ r.Store.cells C.Leader :=
        List.mem_map.mpr ⟨e, List.mem_filter.mpr ⟨he, by simpa using hl⟩, rfl⟩
      rw [hOwn] at hx
      exact List.not_mem_nil _ hx
    exact cellStore.cells_nodup (r.Store.assignAll a ks C) C.Leader a
      (cellStore.assignAll_keysNodup a C ks r.Store hWf)
      (cellStore.assignAll_ownedApp a C C.Leader ks r.Store happ0)

/-- C5 witness: locking two cells of app "a" for colony 7 on an empty
cell store, twice. -/
theorem C5_lock_idempotent_witness :
    ∃ r1, newRegistry.Apply
        (.lockMappedCell { Leader := 7, Followers := [] } "a" ["c1", "c2"])
        = .ok (.col { Leader := 7, Followers := [] }) r1
      ∧ (∀ k ∈ (["c1", "c2"] : List String),
          r1.Store.colony "a" k = some { Leader := 7, Followers := [] })
      ∧ r1.Apply (.lockMappedCell { Leader := 7, Followers := [] } "a" ["c1", "c2"])
        = .ok (.col { Leader := 7, Followers := [] }) r1
      ∧ (∀ x, x ∈ r1.Store.cells ({ Leader := 7, Followers := [] } : Colony).Leader ↔
          x ∈ (["c1", "c2"] : List String))
      ∧ (r1.Store.cells ({ Leader := 7, Followers := [] } : Colony).Leader).Nodup :=
  C5_lock_idempotent newRegistry { Leader := 7, Followers := [] } "a" ["c1", "c2"]
    (by decide) (by decide) (by decide) (by decide)

theorem Colony.contains_eq_false {c : Colony} {id : Nat} (h : c.Contains id = false) :
    c.Leader ≠ id ∧ id ∉ c.Followers := by
  simpa [Colony.Contains] using h

theorem Colony.contains_eq_true {c : Colony} {id : Nat} (h : c.Contains id = true) :
    c.Leader = id ∨ id ∈ c.Followers := by
  simpa [Colony.Contains] using h

/-- C4: `updateColony{Old,New}` with two non-nil colonies whose
referenced bees all exist reassigns every cell owned by Old to New,
gives the old leader colony New when New still contains it and the nil
colony otherwise, clears the colony of every old follower not contained
in New, and gives every member of New (leader and followers) colony
New; with a nil colony the request fails with `ErrInvalidParam` and the
registry is unchanged. -/
theorem C4_updateColony_rehome (r : registry) (old new : Colony) :
    ((new.IsNil || old.IsNil) = true →
      r.Apply (.updateColony old new) = .err .ErrInvalidParam r)
    ∧ ((new.IsNil || old.IsNil) = false →
      (mapLookup r.Bees new.Leader).isSome = true →
      (mapLookup r.Bees old.Leader).isSome = true →
      (∀ f ∈ old.Followers, (mapLookup r.Bees f).isSome = true) →
      (∀ f ∈ new.Followers, (mapLookup r.Bees f).isSome = true) →
      ∃ r1, r.Apply (.updateColony old new) = .ok .noReply r1
        ∧ (∀ app k, r1.Store.colony app k =
            if r.Store.colony app k = some old then some new else r.Store.colony app k)
        ∧ colonyOf r1 old.Leader = some (if new.Contains old.Leader then new else Colony.nilC)
        ∧ (∀ f ∈ old.Followers, new.Contains f = false → colonyOf r1 f = some Colony.nilC)
        ∧ colonyOf r1 new.Leader = some new
        ∧ (∀ f ∈ new.Followers, colonyOf r1 f = some new)) := by
  constructor
  · intro h
    simp [registry.Apply, registry.updateColonyGo, h]
  · intro hnil hnewL holdL hof hnf
    rcases hbNL : mapLookup r.Bees new.Leader with _ | bNL
    · rw [hbNL] at hnewL; cases hnewL
    by_cases hLeq : old.Leader = new.Leader
    · rcases clearOldFollowers_spec new old.Followers r.Bees
          (fun f hf _ => hof f hf) with ⟨bees2, hclear, hcUn, hcT, hcP⟩
      rcases setNewFollowers_spec new new.Followers bees2
          (fun f hf => by rw [hcP f]; exact hnf f hf) with ⟨bees3, hsetN, hsUn, hsT, hsP⟩
      have hb3NL : (mapLookup bees3 new.Leader).isSome = true := by
        rw [hsP, hcP, hbNL]; rfl
      rcases hbl : mapLookup bees3 new.Leader with _ | bl
      · rw [hbl] at hb3NL; cases hb3NL
      refine ⟨{ r with
                Store := r.Store.updateColony old new,
                Bees := mapInsert bees3 new.Leader { bl with Colony := new } },
        ?_, ?_, ?_, ?_, ?_, ?_⟩
      · simp only [registry.Apply, registry.updateColonyGo, hnil, Bool.false_eq_true,
          if_false, hbNL]
        rw [if_neg (show ¬old.Leader ≠ new.Leader from fun hcon => hcon hLeq)]
        simp only [hclear, hsetN, hbl]
      · intro app k
        show (r.Store.updateColony old new).colony app k = _
        rw [cellStore.colony_updateColony]
      · rw [hLeq]
        have hContains : new.Contains new.Leader = true := by simp [Colony.Contains]
        rw [hContains]
        simp [colonyOf, mapLookup_insert_self]
      · intro f hf hcf
        rcases Colony.contains_eq_false hcf with ⟨hfl, hff⟩
        show (mapLookup (mapInsert bees3 new.Leader { bl with Colony := new }) f).map
          (fun b => b.Colony) = some Colony.nilC
        rw [mapLookup_insert_ne _ _ _ _ (fun hfe => hfl hfe.symm)]
        rw [hsUn f hff]
        exact hcT f hf hcf
      · show (mapLookup (mapInsert bees3 new.Leader { bl with Colony := new })
            new.Leader).map (fun b => b.Colony) = some new
        rw [mapLookup_insert_self]
        rfl
      · intro f hf
        show (mapLookup (mapInsert bees3 new.Leader { bl with Colony := new }) f).map
          (fun b => b.Colony) = some new
        by_cases hfe : f = new.Leader
        · rw [hfe, mapLookup_insert_self]
          rfl
        · rw [mapLookup_insert_ne _ _ _ _ hfe]
          exact hsT f hf
    · rcases hbOL : mapLookup r.Bees old.Leader with _ | bOL
      · rw [hbOL] at holdL; cases holdL
      have hpres1 : ∀ j, (mapLookup (mapInsert r.Bees old.Leader
          { bOL with Colony := if new.Contains old.Leader then new else Colony.nilC })
            j).isSome = (mapLookup r.Bees j).isSome := by
        intro j
        rw [mapLookup_insert]
        by_cases hj : j = old.Leader
        · rw [if_pos hj, hj, hbOL]; rfl
        · rw [if_neg hj]
      rcases clearOldFollowers_spec new old.Followers
          (mapInsert r.Bees old.Leader
            { bOL with Colony := if new.Contains old.Leader then new else Colony.nilC })
          (fun f hf _ => by rw [hpres1 f]; exact hof f hf)
        with ⟨bees2, hclear, hcUn, hcT, hcP⟩
      rcases setNewFollowers_spec new new.Followers bees2
          (fun f hf => by rw [hcP f, hpres1 f]; exact hnf f hf)
        with ⟨bees3, hsetN, hsUn, hsT, hsP⟩
      have hb3NL : (mapLookup bees3 new.Leader).isSome = true := by
        rw [hsP, hcP, hpres1, hbNL]; rfl
      rcases hbl : mapLookup bees3 new.Leader with _ | bl
      · rw [hbl] at hb3NL; cases hb3NL
      refine ⟨{ r with
                Store := r.Store.updateColony old new,
                Bees := mapInsert bees3 new.Leader { bl with Colony := new } },
        ?_, ?_, ?_, ?_, ?_, ?_⟩
      · simp only [registry.Apply, registry.updateColonyGo, hnil, Bool.false_eq_true,
          if_false, hbNL]
        rw [if_pos hLeq]
        simp only [hbOL, hclear, hsetN, hbl]
      · intro app k
        show (r.Store.updateColony old new).colony app k = _
        rw [cellStore.colony_updateColony]
      · by_cases hCont : new.Contains old.Leader = true
        · rcases Colony.contains_eq_true hCont with hl | hfol
          · exact absurd hl.symm hLeq
          · rw [hCont]
            show (mapLookup (mapInsert bees3 new.Leader { bl with Colony := new })
              old.Leader).map (fun b => b.Colony) = some (if true = true then new
                else Colony.nilC)
            rw [mapLookup_insert_ne _ _ _ _ hLeq]
            rw [hsT old.Leader hfol]
            rfl
        · have hCf : new.Contains old.Leader = false := by
            cases h2 : new.Contains old.Leader
            · rfl
            · exact absurd h2 hCont
          rcases Colony.contains_eq_false hCf with ⟨hnl2, hnf2⟩
          rw [hCf]
          show (mapLookup (mapInsert bees3 new.Leader { bl with Colony := new })
            old.Leader).map (fun b => b.Colony) = some (if false = true then new
              else Colony.nilC)
          rw [mapLookup_insert_ne _ _ _ _ hLeq]
          rw [hsUn old.Leader hnf2]
          by_cases hOF : old.Leader ∈ old.Followers ∧ new.Contains old.Leader = false
          · rw [hcT old.Leader hOF.1 hOF.2]
            rfl
          · rw [hcUn old.Leader hOF, mapLookup_insert_self]
            simp [hCf]
      · intro f hf hcf
        rcases Colony.contains_eq_false hcf with ⟨hfl, hff⟩
        show (mapLookup (mapInsert bees3 new.Leader { bl with Colony := new }) f).map
          (fun b => b.Colony) = some Colony.nilC
        rw [mapLookup_insert_ne _ _ _ _ (fun hfe => hfl hfe.symm)]
        rw [hsUn f hff]
        exact hcT f hf hcf
      · show (mapLookup (mapInsert bees3 new.Leader { bl with Colony := new })
            new.Leader).map (fun b => b.Colony) = some new
        rw [mapLookup_insert_self]
        rfl
      · intro f hf
        show (mapLookup (mapInsert bees3 new.Leader { bl with Colony := new }) f).map
          (fun b => b.Colony) = some new
        by_cases hfe : f = new.Leader
        · rw [hfe, mapLookup_insert_self]
          rfl
        · rw [mapLookup_insert_ne _ _ _ _ hfe]
          exact hsT f hf

/-- C4 witness: colony {1,[2]} hands over to {2,[3]} among bees 1-3. -/
theorem C4_updateColony_rehome_witness :
    ∃ r1,
      registry.Apply
        { HiveID := 1, BeeID := 3, Hives := [],
          Bees := [(1, { ID := 1, Hive := 1, App := "a",
                         Colony := { Leader := 1, Followers := [2] }, Detached := false }),
                   (2, { ID := 2, Hive := 1, App := "a",
                         Colony := { Leader := 1, Followers := [2] }, Detached := false }),
                   (3, { ID := 3, Hive := 1, App := "a",
                         Colony := Colony.nilC, Detached := false })],
          Store := { entries := [(("a", "k"), { Leader := 1, Followers := [2] })] } }
        (.updateColony { Leader := 1, Followers := [2] } { Leader := 2, Followers := [3] })
        = .ok .noReply r1
      ∧ (∀ app k, r1.Store.colony app k =
          if cellStore.colony
              { entries := [(("a", "k"), { Leader := 1, Followers := [2] })] } app k
            = some { Leader := 1, Followers := [2] }
          then some { Leader := 2, Followers := [3] }
          else cellStore.colony
            { entries := [(("a", "k"), { Leader := 1, Followers := [2] })] } app k)
      ∧ colonyOf r1 ({ Leader := 1, Followers := [2] } : Colony).Leader
        = some (if Colony.Contains { Leader := 2, Followers := [3] }
              ({ Leader := 1, Followers := [2] } : Colony).Leader
            then { Leader := 2, Followers := [3] } else Colony.nilC)
      ∧ (∀ f ∈ ({ Leader := 1, Followers := [2] } : Colony).Followers,
          Colony.Contains { Leader := 2, Followers := [3] } f = false →
          colonyOf r1 f = some Colony.nilC)
      ∧ colonyOf r1 ({ Leader := 2, Followers := [3] } : Colony).Leader
        = some { Leader := 2, Followers := [3] }
      ∧ (∀ f ∈ ({ Leader := 2, Followers := [3] } : Colony).Followers,
          colonyOf r1 f = some { Leader := 2, Followers := [3] }) :=
  (C4_updateColony_rehome
    { HiveID := 1, BeeID := 3, Hives := [],
      Bees := [(1, { ID := 1, Hive := 1, App := "a",
                     Colony := { Leader := 1, Followers := [2] }, Detached := false }),
               (2, { ID := 2, Hive := 1, App := "a",
                     Colony := { Leader := 1, Followers := [2] }, Detached := false }),
               (3, { ID := 3, Hive := 1, App := "a",
                     Colony := Colony.nilC, Detached := false })],
      Store := { entries := [(("a", "k"), { Leader := 1, Followers := [2] })] } }
    { Leader := 1, Followers := [2] } { Leader := 2, Followers := [3] }).2
    (by decide) (by decide) (by decide) (by decide) (by decide)
